import Mathlib

/-!
Verification of the resource-governance core of discord-clanker:
quota enforcement (Redis Lua scripts + Go wrappers), role-based
capability resolution, token counting, and token-budgeted context
assembly.  Definitions are shallow embeddings of the Go/Lua sources:

* scripts/lua/ratelimit.lua, scripts/lua/token_limit.lua and their
  copies in internal/ratelimit/limiter.go (rate/token check scripts),
* internal/ratelimit/limiter.go (CheckRateLimit, CheckTokenLimit),
* internal/storage/keys.go (key construction),
* internal/rbac (Manager.HasPermission, CanUseModel, GetAllowedModels,
  matchesModelPattern),
* internal/conversation (ContextBuilder.Build, TokenCounter.Count).
-/

/-! ## Redis store model

A Redis entry holds an integer value and an optional absolute expiry
time.  `GET`/`TTL` respect expiry relative to the current time `now`;
a Lua script executes atomically at a single instant. -/

/-- A stored Redis value: integer payload plus optional absolute expiry
(`SET key v EX s` at time `t` yields expiry `t + s`; `INCR` on a missing
key creates the value with no expiry). -/
structure Entry where
  value : Int
  expireAt : Option Nat
  deriving Repr, DecidableEq

/-- The Redis key space: each key maps to an optional entry. -/
structure Store where
  entries : String → Option Entry

/-- The empty key space. -/
def emptyStore : Store := ⟨fun _ => none⟩

/-- `GET key` at time `now`: a present entry is visible only while not
expired (Redis deletes expired keys lazily; a read never sees them). -/
def Store.get (st : Store) (now : Nat) (k : String) : Option Int :=
  match st.entries k with
  | none => none
  | some e =>
    match e.expireAt with
    | none => some e.value
    | some ex => if now < ex then some e.value else none

/-- `TTL key` at time `now`: `-2` if the key is missing or expired,
`-1` if it has no expiry, else the remaining seconds. -/
def Store.ttl (st : Store) (now : Nat) (k : String) : Int :=
  match st.entries k with
  | none => -2
  | some e =>
    match e.expireAt with
    | none => -1
    | some ex => if now < ex then Int.ofNat (ex - now) else -2

/-- `SET key v EX ex` at time `now`. -/
def Store.setEx (st : Store) (now : Nat) (k : String) (v : Int) (ex : Nat) : Store :=
  ⟨fun k' => if k' = k then some ⟨v, some (now + ex)⟩ else st.entries k'⟩

/-- `INCRBY key d` at time `now` (also models `INCR` with `d = 1`): a
live entry is incremented keeping its expiry, a missing/expired key is
created with value `d` and no expiry. -/
def Store.incrBy (st : Store) (now : Nat) (k : String) (d : Int) : Store :=
  match st.get now k with
  | some v =>
    ⟨fun k' => if k' = k then
        some ⟨v + d, match st.entries k with | some e => e.expireAt | none => none⟩
      else st.entries k'⟩
  | none => ⟨fun k' => if k' = k then some ⟨d, none⟩ else st.entries k'⟩

/-! ## The two Lua scripts

Embedded from `scripts/lua/ratelimit.lua` / `token_limit.lua`, which
are byte-identical to the `rateLimitScript` / `tokenLimitScript`
constants in `internal/ratelimit/limiter.go`. -/

/-- Reply of the rate-limit script: `{status, seconds_until_reset}`. -/
structure RateReply where
  status : Int
  seconds : Int
  deriving Repr, DecidableEq

/-- `ratelimit.lua`: KEYS = minute key, hour key; ARGV = minute limit,
hour limit, minute TTL, hour TTL.  Checks the minute window, then the
hour window, and only if both pass increments both counters. -/
def rateLimitScript (st : Store) (now : Nat) (k1 k2 : String)
    (minuteLimit hourLimit : Int) (minuteTTL hourTTL : Nat) : RateReply × Store :=
  let minute : Int := (st.get now k1).getD 0
  let hour : Int := (st.get now k2).getD 0
  if minuteLimit > 0 ∧ minute ≥ minuteLimit then
    let ttl := st.ttl now k1
    (⟨-1, if ttl > 0 then ttl else 60⟩, st)
  else if hourLimit > 0 ∧ hour ≥ hourLimit then
    let ttl := st.ttl now k2
    (⟨-2, if ttl > 0 then ttl else 3600⟩, st)
  else
    let st1 := if minute = 0 then st.setEx now k1 1 minuteTTL else st.incrBy now k1 1
    let st2 := if hour = 0 then st1.setEx now k2 1 hourTTL else st1.incrBy now k2 1
    (⟨1, 0⟩, st2)

/-- Reply of the token-limit script:
`{status, tokens_used, tokens_remaining, seconds_until_reset}`. -/
structure TokenReply where
  status : Int
  used : Int
  remaining : Int
  seconds : Int
  deriving Repr, DecidableEq

/-- `token_limit.lua`: KEYS = token usage key; ARGV = token limit, TTL
seconds, tokens to add.  Limit 0 bypasses; otherwise deny without
mutation when `used + to_add > limit`, else increment by `to_add`. -/
def tokenLimitScript (st : Store) (now : Nat) (k : String)
    (limit : Int) (ttlArg : Nat) (toAdd : Int) : TokenReply × Store :=
  if limit = 0 then (⟨1, 0, 0, 0⟩, st)
  else
    let used : Int := (st.get now k).getD 0
    if used + toAdd > limit then
      let ttl := st.ttl now k
      (⟨-1, used, limit - used, if ttl > 0 then ttl else Int.ofNat ttlArg⟩, st)
    else
      let st' := if used = 0 then st.setEx now k toAdd ttlArg else st.incrBy now k toAdd
      (⟨1, used + toAdd, limit - (used + toAdd), 0⟩, st')

/-! ## Key construction (`internal/storage/keys.go`) -/

/-- `Keys.RateLimitMinute`: `"%s%s:ratelimit:%s:minute"`. -/
def Keys.RateLimitMinute (pfx guildID userID : String) : String :=
  pfx ++ guildID ++ ":ratelimit:" ++ userID ++ ":minute"

/-- `Keys.RateLimitHour`: `"%s%s:ratelimit:%s:hour"`. -/
def Keys.RateLimitHour (pfx guildID userID : String) : String :=
  pfx ++ guildID ++ ":ratelimit:" ++ userID ++ ":hour"

/-- `Keys.TokenLimit`: `"%s%s:tokens:%s:%d"`. -/
def Keys.TokenLimit (pfx guildID userID : String) (periodStart : Nat) : String :=
  pfx ++ guildID ++ ":tokens:" ++ userID ++ ":" ++ toString periodStart

/-! ## Go wrappers (`internal/ratelimit/limiter.go`) -/

/-- `config.RateLimit`. -/
structure RateLimit where
  requestsPerMinute : Int
  requestsPerHour : Int
  deriving Repr, DecidableEq

/-- `config.TokenLimit`. -/
structure TokenLimit where
  bypass : Bool
  tokensPerPeriod : Int
  periodHours : Nat
  deriving Repr, DecidableEq

/-- `ratelimit.RateLimitResult`. -/
structure RateLimitResult where
  allowed : Bool
  secondsToReset : Int
  limitType : String
  deriving Repr, DecidableEq

/-- `ratelimit.TokenLimitResult`. -/
structure TokenLimitResult where
  allowed : Bool
  tokensUsed : Int
  tokensRemaining : Int
  secondsToReset : Int
  deriving Repr, DecidableEq

/-- `Limiter.CheckRateLimit`: builds the two window keys (no epoch
component) and runs the rate script with TTL arguments 60 and 3600. -/
def checkRateLimit (st : Store) (now : Nat) (pfx guildID userID : String)
    (limits : RateLimit) : Except String RateLimitResult × Store :=
  let minuteKey := Keys.RateLimitMinute pfx guildID userID
  let hourKey := Keys.RateLimitHour pfx guildID userID
  let (r, st') := rateLimitScript st now minuteKey hourKey
    limits.requestsPerMinute limits.requestsPerHour 60 3600
  if r.status = 1 then (.ok ⟨true, 0, ""⟩, st')
  else if r.status = -1 then (.ok ⟨false, r.seconds, "minute"⟩, st')
  else if r.status = -2 then (.ok ⟨false, r.seconds, "hour"⟩, st')
  else (.error "unknown rate limit status", st')

/-- The period-start computation in `Limiter.CheckTokenLimit`:
`(now.Unix() / periodSeconds) * periodSeconds`. -/
def periodStartOf (periodSeconds now : Nat) : Nat :=
  now / periodSeconds * periodSeconds

/-- `Limiter.CheckTokenLimit`: bypass short-circuits; otherwise the key
embeds the period start epoch and the token script runs with the period
length as TTL argument. -/
def checkTokenLimit (st : Store) (now : Nat) (pfx guildID userID : String)
    (limit : TokenLimit) (tokensToAdd : Int) : TokenLimitResult × Store :=
  if limit.bypass then (⟨true, 0, 0, 0⟩, st)
  else
    let periodSeconds := limit.periodHours * 3600
    let key := Keys.TokenLimit pfx guildID userID (periodStartOf periodSeconds now)
    let (r, st') := tokenLimitScript st now key limit.tokensPerPeriod periodSeconds tokensToAdd
    if r.status = 1 then (⟨true, r.used, r.remaining, 0⟩, st')
    else (⟨false, r.used, r.remaining, r.seconds⟩, st')

/-! ## RBAC (`internal/rbac`) -/

/-- `config.RoleConfig`. -/
structure RoleConfig where
  discordRole : String
  permissions : List String
  allowedModels : List String
  deriving Repr, DecidableEq

/-- `config.GuildConfig` (the fields the RBAC manager consults). -/
structure GuildConfig where
  id : String
  enabledModels : List String
  roles : List RoleConfig
  deriving Repr, DecidableEq

/-- `config.Config` (the field the RBAC manager consults). -/
structure Config where
  guilds : List GuildConfig
  deriving Repr, DecidableEq

/-- `Config.GetGuild`: first guild whose ID matches, else an error
(modelled as `none`). -/
def getGuild (c : Config) (guildID : String) : Option GuildConfig :=
  c.guilds.find? (fun g => g.id == guildID)

/-- rbac helper `contains`: linear scan for an exact string. -/
def containsStr (slice : List String) (item : String) : Bool :=
  slice.any (fun s => s == item)

/-- `rbac.matchesModelPattern`: universal wildcard, exact match, or a
trailing `"/*"` namespace wildcard. -/
def matchesModelPattern (modelRef pattern : String) : Bool :=
  if pattern = "*" then true
  else if modelRef = pattern then true
  else if pattern.endsWith "/*" then
    (pattern.dropRight 2 ++ "/").isPrefixOf modelRef
  else false

/-- The role-consultation test shared by the three Manager queries: a
role config applies when the member holds the role or the config is for
`"@everyone"`. -/
def roleApplies (memberRoles : List String) (rc : RoleConfig) : Bool :=
  containsStr memberRoles rc.discordRole || rc.discordRole == "@everyone"

/-- `Manager.HasPermission`: any consulted role config granting the
permission. -/
def hasPermission (c : Config) (guildID : String) (memberRoles : List String)
    (perm : String) : Bool :=
  match getGuild c guildID with
  | none => false
  | some gc =>
    gc.roles.any (fun rc =>
      roleApplies memberRoles rc && rc.permissions.any (fun p => p == perm))

/-- `Manager.CanUseModel`: any consulted role config with a pattern
matching the model reference (the enabled-model list is not consulted). -/
def canUseModel (c : Config) (guildID : String) (memberRoles : List String)
    (modelRef : String) : Bool :=
  match getGuild c guildID with
  | none => false
  | some gc =>
    gc.roles.any (fun rc =>
      roleApplies memberRoles rc &&
      rc.allowedModels.any (fun p => matchesModelPattern modelRef p))

/-- Inner loop of `Manager.GetAllowedModels` for one pattern: insert
every enabled model the pattern matches into the accumulated set
(Go uses a map keyed by model; modelled as insert-if-absent). -/
def addMatches (pat : String) (acc : List String) : List String → List String
  | [] => acc
  | m :: rest =>
    if matchesModelPattern m pat && !containsStr acc m then
      addMatches pat (acc ++ [m]) rest
    else
      addMatches pat acc rest

/-- Pattern loop of `Manager.GetAllowedModels` for one consulted role:
`none` signals the `"*"` early return (access to all enabled models). -/
def rolePatterns (enabled : List String) : List String → List String → Option (List String)
  | [], acc => some acc
  | p :: rest, acc =>
    if p = "*" then none
    else rolePatterns enabled rest (addMatches p acc enabled)

/-- Role loop of `Manager.GetAllowedModels`. -/
def getAllowedAux (enabled : List String) (memberRoles : List String) :
    List RoleConfig → List String → List String
  | [], acc => acc
  | rc :: rest, acc =>
    if roleApplies memberRoles rc then
      match rolePatterns enabled rc.allowedModels acc with
      | none => enabled
      | some acc' => getAllowedAux enabled memberRoles rest acc'
    else getAllowedAux enabled memberRoles rest acc

/-- `Manager.GetAllowedModels`: all enabled models the member's
consulted role patterns match; a consulted `"*"` pattern returns the
guild's enabled-model list outright. -/
def getAllowedModels (c : Config) (guildID : String) (memberRoles : List String) :
    List String :=
  match getGuild c guildID with
  | none => []
  | some gc => getAllowedAux gc.enabledModels memberRoles gc.roles []

/-! ## Token counting (`TokenCounter` in the conversation package) -/

/-- Go helper `contains` (with `findSubstring`): all of its branches
together decide exactly "substr occurs as a contiguous substring of s". -/
def containsSub (s substr : String) : Bool :=
  decide (substr.data <:+: s.data)

/-- `TokenCounter.getEncodingName`: every branch yields `"cl100k_base"`. -/
def getEncodingName (model : String) : String :=
  if containsSub model "gpt-4" || containsSub model "gpt-3.5" || containsSub model "gpt-35" then
    "cl100k_base"
  else if containsSub model "claude" then
    "cl100k_base"
  else
    "cl100k_base"

/-- `TokenCounter.estimateTokens`: rough estimate `(len(text)+3)/4`,
over the UTF-8 byte length Go's `len` returns. -/
def estimateTokens (text : String) : Nat :=
  (text.utf8ByteSize + 3) / 4

/-- The encoder table: which tiktoken encodings are available
(`tiktoken.GetEncoding` succeeding), and the token sequence an
available encoder produces.  The Go encoder cache only memoizes this
lookup and never changes its result. -/
structure TokenCounter where
  encoders : String → Option (String → List Nat)

/-- `TokenCounter.Count`: encode when an encoder for the model's
encoding family is available, otherwise fall back to the estimate;
both paths return a nil error. -/
def TokenCounter.count (tc : TokenCounter) (text model : String) : Except String Nat :=
  match tc.encoders (getEncodingName model) with
  | some encoder => .ok (encoder text).length
  | none => .ok (estimateTokens text)

/-! ## Context assembly (`ContextBuilder.Build` in the conversation
package)

`Build` only consults the counter through `Count(content, model)`; by
`TokenCounter.count` above that call never fails, so for a fixed model
the counter is a total function from text to a count, passed here as
`count`. -/

/-- `conversation.Message`. -/
structure Message where
  role : String
  content : String
  tokens : Int
  deriving Repr, DecidableEq, Inhabited

/-- The per-message charge inside `ContextBuilder.Build`: a precomputed
nonzero `Tokens` is used as is; a zero `Tokens` is recounted as content
cost plus the 4-token formatting overhead. -/
def msgCost (count : String → Int) (m : Message) : Int :=
  if m.tokens = 0 then count m.content + 4 else m.tokens

/-- The newest-to-oldest selection loop of `ContextBuilder.Build`:
walk the reversed history, stop at the first message whose charge would
push the running total over `available`, and return the kept messages
(newest first) with the final total. -/
def selectRev (count : String → Int) (available : Int) :
    List Message → Int → List Message × Int
  | [], total => ([], total)
  | m :: rest, total =>
    let c := msgCost count m
    if total + c > available then ([], total)
    else
      let (sel, t) := selectRev count available rest (total + c)
      (m :: sel, t)

/-- `ContextBuilder.Build`: system prompt always first (with content
cost + 4 overhead); if it alone reaches the budget, return just the
system message with its own cost; otherwise select a newest-first
window of history and restore chronological order. -/
def build (count : String → Int) (messages : List Message) (systemPrompt : String)
    (maxTokens reserveTokens : Int) : List Message × Int :=
  let availableTokens := maxTokens - reserveTokens
  let systemTokens := count systemPrompt + 4
  let remainingTokens := availableTokens - systemTokens
  if remainingTokens ≤ 0 then
    ([⟨"system", systemPrompt, systemTokens⟩], systemTokens)
  else
    let (selRev, totalTokens) := selectRev count availableTokens messages.reverse systemTokens
    (⟨"system", systemPrompt, systemTokens⟩ :: selRev.reverse, totalTokens)

/-! ## Store lemmas -/

theorem Store.get_setEx_self (st : Store) (now : Nat) (k : String) (v : Int) (ex : Nat) :
    (st.setEx now k v ex).get now k = if 0 < ex then some v else none := by
  unfold Store.setEx Store.get
  simp [lt_add_iff_pos_right]

theorem Store.get_setEx_other (st : Store) (now : Nat) {k k' : String} (h : k' ≠ k)
    (v : Int) (ex : Nat) :
    (st.setEx now k v ex).get now k' = st.get now k' := by
  unfold Store.setEx Store.get
  simp [h]

theorem Store.get_incrBy_self (st : Store) (now : Nat) (k : String) (d : Int) :
    (st.incrBy now k d).get now k = some ((st.get now k).getD 0 + d) := by
  cases he : st.entries k with
  | none =>
    have hg : st.get now k = none := by unfold Store.get; simp [he]
    unfold Store.incrBy
    rw [hg]
    unfold Store.get
    simp
  | some e =>
    cases hx : e.expireAt with
    | none =>
      have hg : st.get now k = some e.value := by unfold Store.get; simp [he, hx]
      unfold Store.incrBy
      rw [hg]
      unfold Store.get
      simp [he, hx]
    | some ex =>
      by_cases hlt : now < ex
      · have hg : st.get now k = some e.value := by unfold Store.get; simp [he, hx, hlt]
        unfold Store.incrBy
        rw [hg]
        unfold Store.get
        simp [he, hx, hlt]
      · have hg : st.get now k = none := by unfold Store.get; simp [he, hx, hlt]
        unfold Store.incrBy
        rw [hg]
        unfold Store.get
        simp [he, hx, hlt]

theorem Store.get_incrBy_other (st : Store) (now : Nat) {k k' : String} (h : k' ≠ k)
    (d : Int) :
    (st.incrBy now k d).get now k' = st.get now k' := by
  unfold Store.incrBy
  cases hg : st.get now k <;> (unfold Store.get; simp [h])

/-! ## Script branch shapes -/

theorem rateLimitScript_deny_minute (st : Store) (now : Nat) (k1 k2 : String)
    (ml hl : Int) (mt ht : Nat)
    (h1 : ml > 0 ∧ (st.get now k1).getD 0 ≥ ml) :
    rateLimitScript st now k1 k2 ml hl mt ht =
      (⟨-1, if st.ttl now k1 > 0 then st.ttl now k1 else 60⟩, st) := by
  simp only [rateLimitScript]
  rw [if_pos h1]

theorem rateLimitScript_deny_hour (st : Store) (now : Nat) (k1 k2 : String)
    (ml hl : Int) (mt ht : Nat)
    (h1 : ¬(ml > 0 ∧ (st.get now k1).getD 0 ≥ ml))
    (h2 : hl > 0 ∧ (st.get now k2).getD 0 ≥ hl) :
    rateLimitScript st now k1 k2 ml hl mt ht =
      (⟨-2, if st.ttl now k2 > 0 then st.ttl now k2 else 3600⟩, st) := by
  simp only [rateLimitScript]
  rw [if_neg h1, if_pos h2]

theorem rateLimitScript_admit_eq (st : Store) (now : Nat) (k1 k2 : String)
    (ml hl : Int) (mt ht : Nat)
    (h1 : ¬(ml > 0 ∧ (st.get now k1).getD 0 ≥ ml))
    (h2 : ¬(hl > 0 ∧ (st.get now k2).getD 0 ≥ hl)) :
    rateLimitScript st now k1 k2 ml hl mt ht =
      (⟨1, 0⟩,
        if (st.get now k2).getD 0 = 0 then
          (if (st.get now k1).getD 0 = 0 then st.setEx now k1 1 mt
            else st.incrBy now k1 1).setEx now k2 1 ht
        else
          (if (st.get now k1).getD 0 = 0 then st.setEx now k1 1 mt
            else st.incrBy now k1 1).incrBy now k2 1) := by
  simp only [rateLimitScript]
  rw [if_neg h1, if_neg h2]

theorem tokenLimitScript_bypass (st : Store) (now : Nat) (k : String)
    (ttlArg : Nat) (toAdd : Int) :
    tokenLimitScript st now k 0 ttlArg toAdd = (⟨1, 0, 0, 0⟩, st) := by
  simp [tokenLimitScript]

theorem tokenLimitScript_deny (st : Store) (now : Nat) (k : String)
    (limit : Int) (ttlArg : Nat) (toAdd : Int)
    (h0 : limit ≠ 0)
    (h : (st.get now k).getD 0 + toAdd > limit) :
    tokenLimitScript st now k limit ttlArg toAdd =
      (⟨-1, (st.get now k).getD 0, limit - (st.get now k).getD 0,
        if st.ttl now k > 0 then st.ttl now k else Int.ofNat ttlArg⟩, st) := by
  simp only [tokenLimitScript]
  rw [if_neg h0, if_pos h]

theorem tokenLimitScript_allow (st : Store) (now : Nat) (k : String)
    (limit : Int) (ttlArg : Nat) (toAdd : Int)
    (h0 : limit ≠ 0)
    (h : ¬((st.get now k).getD 0 + toAdd > limit)) :
    tokenLimitScript st now k limit ttlArg toAdd =
      (⟨1, (st.get now k).getD 0 + toAdd, limit - ((st.get now k).getD 0 + toAdd), 0⟩,
        if (st.get now k).getD 0 = 0 then st.setEx now k toAdd ttlArg
          else st.incrBy now k toAdd) := by
  simp only [tokenLimitScript]
  rw [if_neg h0, if_neg h]

/-- C1: For every quota counter key with a configured positive limit, a
successful check-then-increment never leaves the stored counter value
above that limit: the rate script admits and increments only when the
minute counter is below the minute limit and the hour counter is below
the hour limit, and the token script admits and increments by the
requested amount only when current usage plus the requested amount is
at most the limit, so after any admitted call each counter's value is
at most its limit. -/
theorem admitted_counter_le_limit (st : Store) (now : Nat) (k1 k2 k : String)
    (ml hl : Int) (mt ht : Nat) (limit : Int) (ttlArg : Nat) (toAdd : Int) :
    (k1 ≠ k2 →
      (rateLimitScript st now k1 k2 ml hl mt ht).1.status = 1 →
      ((0 < ml → (((rateLimitScript st now k1 k2 ml hl mt ht).2.get now k1).getD 0 ≤ ml)) ∧
       (0 < hl → (((rateLimitScript st now k1 k2 ml hl mt ht).2.get now k2).getD 0 ≤ hl)))) ∧
    (0 < limit →
      (tokenLimitScript st now k limit ttlArg toAdd).1.status = 1 →
      (((tokenLimitScript st now k limit ttlArg toAdd).2.get now k).getD 0 ≤ limit)) := by
  constructor
  · intro hk hs
    by_cases h1 : ml > 0 ∧ (st.get now k1).getD 0 ≥ ml
    · rw [rateLimitScript_deny_minute st now k1 k2 ml hl mt ht h1] at hs
      simp at hs
    · by_cases h2 : hl > 0 ∧ (st.get now k2).getD 0 ≥ hl
      · rw [rateLimitScript_deny_hour st now k1 k2 ml hl mt ht h1 h2] at hs
        simp at hs
      · rw [rateLimitScript_admit_eq st now k1 k2 ml hl mt ht h1 h2]
        push_neg at h1 h2
        constructor
        · intro hml
          have hlt : (st.get now k1).getD 0 < ml := h1 hml
          have hpres1 : ∀ stX : Store,
              ((if (st.get now k2).getD 0 = 0 then stX.setEx now k2 1 ht
                 else stX.incrBy now k2 1).get now k1) = stX.get now k1 := by
            intro stX
            by_cases hh : (st.get now k2).getD 0 = 0
            · rw [if_pos hh, Store.get_setEx_other stX now hk]
            · rw [if_neg hh, Store.get_incrBy_other stX now hk]
          rw [hpres1]
          by_cases hm : (st.get now k1).getD 0 = 0
          · rw [if_pos hm, Store.get_setEx_self]
            split_ifs <;> simp <;> omega
          · rw [if_neg hm, Store.get_incrBy_self]
            simp
            omega
        · intro hhl
          have hlt : (st.get now k2).getD 0 < hl := h2 hhl
          have hpres2 : ((if (st.get now k1).getD 0 = 0 then st.setEx now k1 1 mt
              else st.incrBy now k1 1).get now k2) = st.get now k2 := by
            by_cases hm : (st.get now k1).getD 0 = 0
            · rw [if_pos hm, Store.get_setEx_other st now (Ne.symm hk)]
            · rw [if_neg hm, Store.get_incrBy_other st now (Ne.symm hk)]
          by_cases hh : (st.get now k2).getD 0 = 0
          · rw [if_pos hh, Store.get_setEx_self]
            split_ifs <;> simp <;> omega
          · rw [if_neg hh, Store.get_incrBy_self, hpres2]
            simp
            omega
  · intro hl0 hs
    have h0 : limit ≠ 0 := by omega
    by_cases h : (st.get now k).getD 0 + toAdd > limit
    · rw [tokenLimitScript_deny st now k limit ttlArg toAdd h0 h] at hs
      simp at hs
    · rw [tokenLimitScript_allow st now k limit ttlArg toAdd h0 h]
      by_cases hz : (st.get now k).getD 0 = 0
      · rw [if_pos hz, Store.get_setEx_self]
        split_ifs <;> simp <;> omega
      · rw [if_neg hz, Store.get_incrBy_self]
        simp
        omega

/-- Witness for `admitted_counter_le_limit` at a concrete admitted call. -/
theorem admitted_counter_le_limit_witness :
    (((rateLimitScript emptyStore 0 "m" "h" 2 3 60 3600).2.get 0 "m").getD 0 ≤ 2) ∧
    (((tokenLimitScript emptyStore 0 "t" 100 60 30).2.get 0 "t").getD 0 ≤ 100) := by
  have h := admitted_counter_le_limit emptyStore 0 "m" "h" "t" 2 3 60 3600 100 60 30
  exact ⟨(h.1 (by decide) (by decide)).1 (by decide), h.2 (by decide) (by decide)⟩

/-- C2: For every token-quota check with a positive limit and bypass
unset, if current usage plus the requested increment exceeds the limit,
the check is denied, reports the current usage, the remaining budget
(limit minus usage), and a positive time-to-reset, and leaves the
stored usage unchanged (the 30/50/30 scenario with limit 100 is the
witness below). -/
theorem tokenLimit_deny_reports_and_preserves
    (st : Store) (now : Nat) (pfx g u : String) (cfg : TokenLimit) (toAdd : Int)
    (hb : cfg.bypass = false)
    (hpos : 0 < cfg.tokensPerPeriod)
    (hph : 0 < cfg.periodHours)
    (hover : (st.get now (Keys.TokenLimit pfx g u
        (periodStartOf (cfg.periodHours * 3600) now))).getD 0 + toAdd >
        cfg.tokensPerPeriod) :
    (checkTokenLimit st now pfx g u cfg toAdd).1.allowed = false ∧
    (checkTokenLimit st now pfx g u cfg toAdd).1.tokensUsed =
      (st.get now (Keys.TokenLimit pfx g u
        (periodStartOf (cfg.periodHours * 3600) now))).getD 0 ∧
    (checkTokenLimit st now pfx g u cfg toAdd).1.tokensRemaining =
      cfg.tokensPerPeriod -
        (st.get now (Keys.TokenLimit pfx g u
          (periodStartOf (cfg.periodHours * 3600) now))).getD 0 ∧
    0 < (checkTokenLimit st now pfx g u cfg toAdd).1.secondsToReset ∧
    (checkTokenLimit st now pfx g u cfg toAdd).2 = st := by
  have h0 : cfg.tokensPerPeriod ≠ 0 := by omega
  have hrw : checkTokenLimit st now pfx g u cfg toAdd =
      (⟨false,
        (st.get now (Keys.TokenLimit pfx g u
          (periodStartOf (cfg.periodHours * 3600) now))).getD 0,
        cfg.tokensPerPeriod -
          (st.get now (Keys.TokenLimit pfx g u
            (periodStartOf (cfg.periodHours * 3600) now))).getD 0,
        if st.ttl now (Keys.TokenLimit pfx g u
            (periodStartOf (cfg.periodHours * 3600) now)) > 0 then
          st.ttl now (Keys.TokenLimit pfx g u
            (periodStartOf (cfg.periodHours * 3600) now))
        else Int.ofNat (cfg.periodHours * 3600)⟩, st) := by
    simp only [checkTokenLimit, hb, Bool.false_eq_true, if_false,
      tokenLimitScript_deny st now _ cfg.tokensPerPeriod _ toAdd h0 hover]
    simp
  rw [hrw]
  refine ⟨rfl, rfl, rfl, ?_, rfl⟩
  split_ifs with httl
  · exact httl
  · simp only [gt_iff_lt, not_lt] at httl
    show (0 : Int) < ((cfg.periodHours * 3600 : Nat) : Int)
    have h1 : 0 < cfg.periodHours * 3600 := by omega
    omega

/-- Witness for `tokenLimit_deny_reports_and_preserves`: limit 100 per
period, increments 30, 50, 30 — the first two are allowed (usage 80),
the third is denied with used 80 and remaining 20, and the stored usage
is still 80 after the denial. -/
theorem tokenLimit_deny_reports_and_preserves_witness :
    (checkTokenLimit emptyStore 0 "" "g" "u" ⟨false, 100, 24⟩ 30).1.allowed = true ∧
    (checkTokenLimit (checkTokenLimit emptyStore 0 "" "g" "u" ⟨false, 100, 24⟩ 30).2
      0 "" "g" "u" ⟨false, 100, 24⟩ 50).1.allowed = true ∧
    (checkTokenLimit (checkTokenLimit emptyStore 0 "" "g" "u" ⟨false, 100, 24⟩ 30).2
      0 "" "g" "u" ⟨false, 100, 24⟩ 50).1.tokensUsed = 80 ∧
    (checkTokenLimit
      (checkTokenLimit (checkTokenLimit emptyStore 0 "" "g" "u" ⟨false, 100, 24⟩ 30).2
        0 "" "g" "u" ⟨false, 100, 24⟩ 50).2
      0 "" "g" "u" ⟨false, 100, 24⟩ 30).1.allowed = false ∧
    (checkTokenLimit
      (checkTokenLimit (checkTokenLimit emptyStore 0 "" "g" "u" ⟨false, 100, 24⟩ 30).2
        0 "" "g" "u" ⟨false, 100, 24⟩ 50).2
      0 "" "g" "u" ⟨false, 100, 24⟩ 30).1.tokensUsed = 80 ∧
    (checkTokenLimit
      (checkTokenLimit (checkTokenLimit emptyStore 0 "" "g" "u" ⟨false, 100, 24⟩ 30).2
        0 "" "g" "u" ⟨false, 100, 24⟩ 50).2
      0 "" "g" "u" ⟨false, 100, 24⟩ 30).1.tokensRemaining = 20 ∧
    0 < (checkTokenLimit
      (checkTokenLimit (checkTokenLimit emptyStore 0 "" "g" "u" ⟨false, 100, 24⟩ 30).2
        0 "" "g" "u" ⟨false, 100, 24⟩ 50).2
      0 "" "g" "u" ⟨false, 100, 24⟩ 30).1.secondsToReset ∧
    (((checkTokenLimit
      (checkTokenLimit (checkTokenLimit emptyStore 0 "" "g" "u" ⟨false, 100, 24⟩ 30).2
        0 "" "g" "u" ⟨false, 100, 24⟩ 50).2
      0 "" "g" "u" ⟨false, 100, 24⟩ 30).2).get 0
        (Keys.TokenLimit "" "g" "u" 0)).getD 0 = 80 := by
  have h := tokenLimit_deny_reports_and_preserves
    (checkTokenLimit (checkTokenLimit emptyStore 0 "" "g" "u" ⟨false, 100, 24⟩ 30).2
      0 "" "g" "u" ⟨false, 100, 24⟩ 50).2
    0 "" "g" "u" ⟨false, 100, 24⟩ 30 rfl (by decide) (by decide) (by decide)
  exact ⟨by decide, by decide, by decide, h.1, by decide, by decide,
    h.2.2.2.1, by decide⟩

/-- C3 counterexample: with both limits 0, an admitted call does touch
the zero-limit windows — the minute and hour counters move from absent
(value 0) to 1, refuting "never incremented / stays untouched". -/
theorem zeroLimit_counter_touched_counterexample :
    (rateLimitScript emptyStore 0 "m" "h" 0 0 60 3600).1.status = 1 ∧
    emptyStore.get 0 "m" = none ∧
    emptyStore.get 0 "h" = none ∧
    (rateLimitScript emptyStore 0 "m" "h" 0 0 60 3600).2.get 0 "m" = some 1 ∧
    (rateLimitScript emptyStore 0 "m" "h" 0 0 60 3600).2.get 0 "h" = some 1 := by
  decide

/-- C3 amended: a window whose configured limit value is zero is never
checked — it can never cause a denial, and with both limits zero every
call is admitted — but its counter is still incremented: every admitted
call raises each window's stored counter by exactly one, zero limit or
not. -/
theorem zeroLimit_never_denies_but_increments
    (st : Store) (now : Nat) (k1 k2 : String) (ml hl : Int) (mt ht : Nat)
    (hk : k1 ≠ k2) :
    (ml = 0 → (rateLimitScript st now k1 k2 ml hl mt ht).1.status ≠ -1) ∧
    (hl = 0 → (rateLimitScript st now k1 k2 ml hl mt ht).1.status ≠ -2) ∧
    (ml = 0 → hl = 0 → (rateLimitScript st now k1 k2 ml hl mt ht).1.status = 1) ∧
    ((rateLimitScript st now k1 k2 ml hl mt ht).1.status = 1 → 0 < mt →
      (rateLimitScript st now k1 k2 ml hl mt ht).2.get now k1 =
        some ((st.get now k1).getD 0 + 1)) ∧
    ((rateLimitScript st now k1 k2 ml hl mt ht).1.status = 1 → 0 < ht →
      (rateLimitScript st now k1 k2 ml hl mt ht).2.get now k2 =
        some ((st.get now k2).getD 0 + 1)) := by
  by_cases h1 : ml > 0 ∧ (st.get now k1).getD 0 ≥ ml
  · rw [rateLimitScript_deny_minute st now k1 k2 ml hl mt ht h1]
    refine ⟨fun hml => ?_, fun _ => by simp, fun hml _ => ?_, fun hs => ?_, fun hs => ?_⟩
    · omega
    · omega
    · simp at hs
    · simp at hs
  · by_cases h2 : hl > 0 ∧ (st.get now k2).getD 0 ≥ hl
    · rw [rateLimitScript_deny_hour st now k1 k2 ml hl mt ht h1 h2]
      refine ⟨fun _ => by simp, fun hhl => ?_, fun _ hhl => ?_, fun hs => ?_, fun hs => ?_⟩
      · omega
      · omega
      · simp at hs
      · simp at hs
    · rw [rateLimitScript_admit_eq st now k1 k2 ml hl mt ht h1 h2]
      refine ⟨fun _ => by simp, fun _ => by simp, fun _ _ => by simp,
        fun _ hmt => ?_, fun _ hht => ?_⟩
      · have hpres1 : ∀ stX : Store,
            ((if (st.get now k2).getD 0 = 0 then stX.setEx now k2 1 ht
               else stX.incrBy now k2 1).get now k1) = stX.get now k1 := by
          intro stX
          by_cases hh : (st.get now k2).getD 0 = 0
          · rw [if_pos hh, Store.get_setEx_other stX now hk]
          · rw [if_neg hh, Store.get_incrBy_other stX now hk]
        rw [hpres1]
        by_cases hm : (st.get now k1).getD 0 = 0
        · rw [if_pos hm, Store.get_setEx_self, if_pos hmt, hm]
          norm_num
        · rw [if_neg hm, Store.get_incrBy_self]
      · have hpres2 : ((if (st.get now k1).getD 0 = 0 then st.setEx now k1 1 mt
            else st.incrBy now k1 1).get now k2) = st.get now k2 := by
          by_cases hm : (st.get now k1).getD 0 = 0
          · rw [if_pos hm, Store.get_setEx_other st now (Ne.symm hk)]
          · rw [if_neg hm, Store.get_incrBy_other st now (Ne.symm hk)]
        by_cases hh : (st.get now k2).getD 0 = 0
        · rw [if_pos hh, Store.get_setEx_self, if_pos hht, hh]
          norm_num
        · rw [if_neg hh, Store.get_incrBy_self, hpres2]

/-- Witness for `zeroLimit_never_denies_but_increments`: zero limits on
a fresh store admit the call and still bump the minute counter. -/
theorem zeroLimit_never_denies_but_increments_witness :
    (rateLimitScript emptyStore 0 "m" "h" 0 0 60 3600).1.status = 1 ∧
    (rateLimitScript emptyStore 0 "m" "h" 0 0 60 3600).2.get 0 "m" =
      some ((emptyStore.get 0 "m").getD 0 + 1) := by
  have h := zeroLimit_never_denies_but_increments emptyStore 0 "m" "h" 0 0 60 3600
    (by decide)
  exact ⟨h.2.2.1 rfl rfl, h.2.2.2.1 (h.2.2.1 rfl rfl) (by decide)⟩

/-! ## Store locality lemmas -/

theorem Store.entries_setEx_self (st : Store) (now : Nat) (k : String) (v : Int) (ex : Nat) :
    (st.setEx now k v ex).entries k = some ⟨v, some (now + ex)⟩ := by
  unfold Store.setEx
  simp

theorem Store.entries_setEx_other (st : Store) (now : Nat) {k k' : String} (h : k' ≠ k)
    (v : Int) (ex : Nat) :
    (st.setEx now k v ex).entries k' = st.entries k' := by
  unfold Store.setEx
  simp [h]

theorem Store.entries_incrBy_other (st : Store) (now : Nat) {k k' : String} (h : k' ≠ k)
    (d : Int) :
    (st.incrBy now k d).entries k' = st.entries k' := by
  unfold Store.incrBy
  cases hg : st.get now k <;> simp [h]

theorem Store.get_congr (st1 st2 : Store) (now : Nat) (k : String)
    (h : st1.entries k = st2.entries k) : st1.get now k = st2.get now k := by
  unfold Store.get
  rw [h]

theorem Store.ttl_congr (st1 st2 : Store) (now : Nat) (k : String)
    (h : st1.entries k = st2.entries k) : st1.ttl now k = st2.ttl now k := by
  unfold Store.ttl
  rw [h]

/-- The token script is local to its key: its reply and its effect at
the key depend only on the entry stored at that key. -/
theorem tokenLimitScript_local (st1 st2 : Store) (now : Nat) (k : String)
    (limit : Int) (ttlArg : Nat) (toAdd : Int)
    (h : st1.entries k = st2.entries k) :
    (tokenLimitScript st1 now k limit ttlArg toAdd).1 =
      (tokenLimitScript st2 now k limit ttlArg toAdd).1 ∧
    (tokenLimitScript st1 now k limit ttlArg toAdd).2.entries k =
      (tokenLimitScript st2 now k limit ttlArg toAdd).2.entries k := by
  have hget : st1.get now k = st2.get now k := Store.get_congr st1 st2 now k h
  have httl : st1.ttl now k = st2.ttl now k := Store.ttl_congr st1 st2 now k h
  by_cases h0 : limit = 0
  · subst h0
    rw [tokenLimitScript_bypass, tokenLimitScript_bypass]
    exact ⟨rfl, h⟩
  · by_cases hov : (st1.get now k).getD 0 + toAdd > limit
    · rw [tokenLimitScript_deny st1 now k limit ttlArg toAdd h0 hov,
        tokenLimitScript_deny st2 now k limit ttlArg toAdd h0 (by rw [← hget]; exact hov)]
      rw [hget, httl]
      exact ⟨rfl, h⟩
    · rw [tokenLimitScript_allow st1 now k limit ttlArg toAdd h0 hov,
        tokenLimitScript_allow st2 now k limit ttlArg toAdd h0 (by rw [← hget]; exact hov)]
      refine ⟨by rw [hget], ?_⟩
      by_cases hz : (st1.get now k).getD 0 = 0
      · rw [if_pos hz, if_pos (by rw [← hget]; exact hz)]
        rw [Store.entries_setEx_self, Store.entries_setEx_self]
      · rw [if_neg hz, if_neg (by rw [← hget]; exact hz)]
        unfold Store.incrBy
        rw [← hget]
        cases hg : st1.get now k with
        | none => simp
        | some v => simp [h]

instance : DecidableEq (Except String RateLimitResult) := fun a b =>
  match a, b with
  | .ok x, .ok y =>
    if h : x = y then .isTrue (by rw [h]) else .isFalse (by simp [h])
  | .error x, .error y =>
    if h : x = y then .isTrue (by rw [h]) else .isFalse (by simp [h])
  | .ok _, .error _ => .isFalse (by simp)
  | .error _, .ok _ => .isFalse (by simp)

/-- C4 counterexample: the minute rate window is not epoch-keyed.  A
call at t = 59 admits and starts the minute counter; at t = 61 the
wall-clock minute epoch has changed (59/60 ≠ 61/60), yet the check is
denied because the same key (with its first-use-anchored TTL) is still
live — whereas a counter reset to zero would admit, as the fresh-store
call at t = 61 shows. -/
theorem rateWindow_not_epoch_keyed_counterexample :
    (checkRateLimit emptyStore 59 "" "g" "u" ⟨1, 0⟩).1 = .ok ⟨true, 0, ""⟩ ∧
    (59 : Nat) / 60 ≠ (61 : Nat) / 60 ∧
    (checkRateLimit (checkRateLimit emptyStore 59 "" "g" "u" ⟨1, 0⟩).2
      61 "" "g" "u" ⟨1, 0⟩).1 = .ok ⟨false, 58, "minute"⟩ ∧
    (checkRateLimit emptyStore 61 "" "g" "u" ⟨1, 0⟩).1 = .ok ⟨true, 0, ""⟩ := by
  decide

/-- C4 amended: only the token window is epoch-keyed — its key embeds
periodStart = floor(now / periodSeconds) · periodSeconds, which differs
across period epochs, and the token check is local to that key, so on a
fresh epoch key it behaves exactly as on an empty store (counter zero)
independent of any pre-rollover state.  The minute and hour rate
windows are keyed without an epoch; the minute window resets only via
the store TTL, anchored at the first increment (expiry now + TTL), not
at wall-clock multiples of the window length. -/
theorem tokenWindow_epoch_keyed_rate_ttl_anchored
    (P t1 t2 : Nat) (st : Store) (now : Nat) (k k1 k2 : String)
    (limit : Int) (ttlArg : Nat) (toAdd : Int) (ml hl : Int) (mt ht : Nat) :
    (0 < P → t1 / P ≠ t2 / P → periodStartOf P t1 ≠ periodStartOf P t2) ∧
    (Keys.TokenLimit "" "g" "u" (periodStartOf 86400 0) ≠
      Keys.TokenLimit "" "g" "u" (periodStartOf 86400 86400)) ∧
    (st.entries k = none →
      (tokenLimitScript st now k limit ttlArg toAdd).1 =
        (tokenLimitScript emptyStore now k limit ttlArg toAdd).1) ∧
    ((st.get now k1).getD 0 = 0 →
      (rateLimitScript st now k1 k2 ml hl mt ht).1.status = 1 →
      k1 ≠ k2 →
      (rateLimitScript st now k1 k2 ml hl mt ht).2.entries k1 =
        some ⟨1, some (now + mt)⟩) := by
  refine ⟨?_, by decide, ?_, ?_⟩
  · intro hP hne heq
    unfold periodStartOf at heq
    exact hne (Nat.eq_of_mul_eq_mul_right hP heq)
  · intro hfresh
    exact (tokenLimitScript_local st emptyStore now k limit ttlArg toAdd
      (by rw [hfresh]; rfl)).1
  · intro hz hs hk
    by_cases h1 : ml > 0 ∧ (st.get now k1).getD 0 ≥ ml
    · rw [rateLimitScript_deny_minute st now k1 k2 ml hl mt ht h1] at hs
      simp at hs
    · by_cases h2 : hl > 0 ∧ (st.get now k2).getD 0 ≥ hl
      · rw [rateLimitScript_deny_hour st now k1 k2 ml hl mt ht h1 h2] at hs
        simp at hs
      · rw [rateLimitScript_admit_eq st now k1 k2 ml hl mt ht h1 h2]
        have hpres1 : ∀ stX : Store,
            ((if (st.get now k2).getD 0 = 0 then stX.setEx now k2 1 ht
               else stX.incrBy now k2 1).entries k1) = stX.entries k1 := by
          intro stX
          by_cases hh : (st.get now k2).getD 0 = 0
          · rw [if_pos hh, Store.entries_setEx_other stX now hk]
          · rw [if_neg hh, Store.entries_incrBy_other stX now hk]
        rw [hpres1, if_pos hz, Store.entries_setEx_self]

/-- Witness for `tokenWindow_epoch_keyed_rate_ttl_anchored`: distinct
day epochs give distinct period starts, and an admitted call on a fresh
minute counter stores value 1 expiring 60 seconds after the call. -/
theorem tokenWindow_epoch_keyed_rate_ttl_anchored_witness :
    periodStartOf 60 59 ≠ periodStartOf 60 61 ∧
    (rateLimitScript emptyStore 0 "m" "h" 0 0 60 3600).2.entries "m" =
      some ⟨1, some (0 + 60)⟩ := by
  have h := tokenWindow_epoch_keyed_rate_ttl_anchored 60 59 61 emptyStore 0 "t" "m" "h"
    100 60 30 0 0 60 3600
  exact ⟨h.1 (by decide) (by decide),
    h.2.2.2 (by decide) (by decide) (by decide)⟩

/-! ## RBAC lemmas -/

theorem containsStr_iff (l : List String) (x : String) :
    containsStr l x = true ↔ x ∈ l := by
  simp [containsStr]

theorem containsStr_append (A B : List String) (x : String) :
    containsStr (A ++ B) x = (containsStr A x || containsStr B x) := by
  simp [containsStr]

theorem matchesModelPattern_star (m : String) :
    matchesModelPattern m "*" = true := by
  simp [matchesModelPattern]

theorem roleApplies_union (A B : List String) (rc : RoleConfig) :
    roleApplies (A ++ B) rc = true ↔
      (roleApplies A rc = true ∨ roleApplies B rc = true) := by
  unfold roleApplies
  rw [containsStr_append]
  simp [Bool.or_eq_true]
  tauto

theorem mem_addMatches (pat : String) (enabled : List String) :
    ∀ (acc : List String) (m : String),
      m ∈ addMatches pat acc enabled ↔
        m ∈ acc ∨ (m ∈ enabled ∧ matchesModelPattern m pat = true) := by
  induction enabled with
  | nil => intro acc m; simp [addMatches]
  | cons x xs ih =>
    intro acc m
    by_cases h1 : matchesModelPattern x pat = true
    · by_cases h2 : containsStr acc x = true
      · have hcond : ¬(matchesModelPattern x pat && !containsStr acc x) = true := by
          simp [h1, h2]
        rw [addMatches, if_neg hcond, ih]
        have hx : x ∈ acc := (containsStr_iff acc x).mp h2
        constructor
        · rintro (hm | ⟨hm, hp⟩)
          · exact Or.inl hm
          · exact Or.inr ⟨List.mem_cons_of_mem x hm, hp⟩
        · rintro (hm | ⟨hm, hp⟩)
          · exact Or.inl hm
          · rcases List.mem_cons.mp hm with rfl | hm
            · exact Or.inl hx
            · exact Or.inr ⟨hm, hp⟩
      · have hcond : (matchesModelPattern x pat && !containsStr acc x) = true := by
          simp [h1, h2]
        rw [addMatches, if_pos hcond, ih]
        simp only [List.mem_append, List.mem_cons, List.not_mem_nil, or_false]
        constructor
        · rintro ((hm | rfl) | ⟨hm, hp⟩)
          · exact Or.inl hm
          · exact Or.inr ⟨Or.inl rfl, h1⟩
          · exact Or.inr ⟨Or.inr hm, hp⟩
        · rintro (hm | ⟨rfl | hm, hp⟩)
          · exact Or.inl (Or.inl hm)
          · exact Or.inl (Or.inr rfl)
          · exact Or.inr ⟨hm, hp⟩
    · have hcond : ¬(matchesModelPattern x pat && !containsStr acc x) = true := by
        simp [h1]
      rw [addMatches, if_neg hcond, ih]
      constructor
      · rintro (hm | ⟨hm, hp⟩)
        · exact Or.inl hm
        · exact Or.inr ⟨List.mem_cons_of_mem x hm, hp⟩
      · rintro (hm | ⟨hm, hp⟩)
        · exact Or.inl hm
        · rcases List.mem_cons.mp hm with rfl | hm
          · exact absurd hp h1
          · exact Or.inr ⟨hm, hp⟩

theorem rolePatterns_eq_none_iff (enabled : List String) :
    ∀ (pats acc : List String),
      rolePatterns enabled pats acc = none ↔ "*" ∈ pats := by
  intro pats
  induction pats with
  | nil => intro acc; simp [rolePatterns]
  | cons p rest ih =>
    intro acc
    by_cases hp : p = "*"
    · subst hp
      simp [rolePatterns]
    · rw [rolePatterns, if_neg hp, ih]
      simp [hp, List.mem_cons]
      tauto

theorem rolePatterns_eq_some (enabled : List String) :
    ∀ (pats acc acc' : List String),
      rolePatterns enabled pats acc = some acc' →
      ∀ m, (m ∈ acc' ↔
        m ∈ acc ∨ (m ∈ enabled ∧ ∃ p ∈ pats, matchesModelPattern m p = true)) := by
  intro pats
  induction pats with
  | nil =>
    intro acc acc' h m
    rw [rolePatterns] at h
    injection h with h
    subst h
    simp
  | cons p rest ih =>
    intro acc acc' h m
    by_cases hp : p = "*"
    · subst hp
      rw [rolePatterns, if_pos rfl] at h
      exact absurd h (by simp)
    · rw [rolePatterns, if_neg hp] at h
      rw [ih (addMatches p acc enabled) acc' h m, mem_addMatches]
      simp only [List.mem_cons]
      constructor
      · rintro ((hm | ⟨he, hmp⟩) | ⟨he, q, hq, hmq⟩)
        · exact Or.inl hm
        · exact Or.inr ⟨he, p, Or.inl rfl, hmp⟩
        · exact Or.inr ⟨he, q, Or.inr hq, hmq⟩
      · rintro (hm | ⟨he, q, (rfl | hq), hmq⟩)
        · exact Or.inl (Or.inl hm)
        · exact Or.inl (Or.inr ⟨he, hmq⟩)
        · exact Or.inr ⟨he, q, hq, hmq⟩

theorem getAllowedAux_mem (enabled names : List String) :
    ∀ (rcs : List RoleConfig) (acc : List String),
      (∀ x ∈ acc, x ∈ enabled) →
      ∀ m, (m ∈ getAllowedAux enabled names rcs acc ↔
        m ∈ acc ∨ (m ∈ enabled ∧ ∃ rc ∈ rcs, roleApplies names rc = true ∧
          ∃ p ∈ rc.allowedModels, matchesModelPattern m p = true)) := by
  intro rcs
  induction rcs with
  | nil =>
    intro acc hacc m
    simp [getAllowedAux]
  | cons rc rest ih =>
    intro acc hacc m
    by_cases hA : roleApplies names rc = true
    · rw [getAllowedAux, if_pos hA]
      cases hrp : rolePatterns enabled rc.allowedModels acc with
      | none =>
        have hstar : "*" ∈ rc.allowedModels :=
          (rolePatterns_eq_none_iff enabled rc.allowedModels acc).mp hrp
        constructor
        · intro hm
          exact Or.inr ⟨hm, rc, List.mem_cons_self rc rest, hA,
            "*", hstar, matchesModelPattern_star m⟩
        · rintro (hm | ⟨he, _⟩)
          · exact hacc m hm
          · exact he
      | some acc' =>
        have hacc' : ∀ x ∈ acc', x ∈ enabled := by
          intro x hx
          rcases (rolePatterns_eq_some enabled rc.allowedModels acc acc' hrp x).mp hx with
            hxa | ⟨hxe, _⟩
          · exact hacc x hxa
          · exact hxe
        rw [ih acc' hacc' m]
        rw [rolePatterns_eq_some enabled rc.allowedModels acc acc' hrp m]
        constructor
        · rintro ((hm | ⟨he, hp⟩) | ⟨he, rc', hrc', hA', hp'⟩)
          · exact Or.inl hm
          · exact Or.inr ⟨he, rc, List.mem_cons_self rc rest, hA, hp⟩
          · exact Or.inr ⟨he, rc', List.mem_cons_of_mem rc hrc', hA', hp'⟩
        · rintro (hm | ⟨he, rc', hrc', hA', hp'⟩)
          · exact Or.inl (Or.inl hm)
          · rcases List.mem_cons.mp hrc' with rfl | hrc'
            · exact Or.inl (Or.inr ⟨he, hp'⟩)
            · exact Or.inr ⟨he, rc', hrc', hA', hp'⟩
    · rw [getAllowedAux, if_neg hA, ih acc hacc m]
      constructor
      · rintro (hm | ⟨he, rc', hrc', hA', hp'⟩)
        · exact Or.inl hm
        · exact Or.inr ⟨he, rc', List.mem_cons_of_mem rc hrc', hA', hp'⟩
      · rintro (hm | ⟨he, rc', hrc', hA', hp'⟩)
        · exact Or.inl hm
        · rcases List.mem_cons.mp hrc' with rfl | hrc'
          · exact absurd hA' hA
          · exact Or.inr ⟨he, rc', hrc', hA', hp'⟩

theorem getAllowedAux_star (enabled names : List String) :
    ∀ (rcs : List RoleConfig) (acc : List String),
      (∃ rc ∈ rcs, roleApplies names rc = true ∧ "*" ∈ rc.allowedModels) →
      getAllowedAux enabled names rcs acc = enabled := by
  intro rcs
  induction rcs with
  | nil =>
    rintro acc ⟨rc, hrc, _⟩
    exact absurd hrc (List.not_mem_nil rc)
  | cons rc rest ih =>
    rintro acc ⟨rc', hrc', hA', hstar'⟩
    by_cases hA : roleApplies names rc = true
    · rw [getAllowedAux, if_pos hA]
      cases hrp : rolePatterns enabled rc.allowedModels acc with
      | none => rfl
      | some acc' =>
        have hnostar : "*" ∉ rc.allowedModels := by
          intro hstar
          rw [(rolePatterns_eq_none_iff enabled rc.allowedModels acc).mpr hstar] at hrp
          exact Option.noConfusion hrp
        rcases List.mem_cons.mp hrc' with rfl | hrc'
        · exact absurd hstar' hnostar
        · exact ih acc' ⟨rc', hrc', hA', hstar'⟩
    · rw [getAllowedAux, if_neg hA]
      rcases List.mem_cons.mp hrc' with rfl | hrc'
      · exact absurd hA' hA
      · exact ih acc ⟨rc', hrc', hA', hstar'⟩

theorem hasPermission_iff (c : Config) (g : String) (roles : List String) (perm : String) :
    hasPermission c g roles perm = true ↔
      ∃ gc, getGuild c g = some gc ∧ ∃ rc ∈ gc.roles,
        roleApplies roles rc = true ∧ perm ∈ rc.permissions := by
  unfold hasPermission
  cases h : getGuild c g with
  | none => simp
  | some gc => simp [List.any_eq_true]

theorem canUseModel_iff (c : Config) (g : String) (roles : List String) (modelRef : String) :
    canUseModel c g roles modelRef = true ↔
      ∃ gc, getGuild c g = some gc ∧ ∃ rc ∈ gc.roles,
        roleApplies roles rc = true ∧
        ∃ p ∈ rc.allowedModels, matchesModelPattern modelRef p = true := by
  unfold canUseModel
  cases h : getGuild c g with
  | none => simp
  | some gc => simp [List.any_eq_true]

/-- C5 counterexample: `CanUseModel` never consults the enabled-model
list — with a consulted role granting the universal wildcard, it
accepts a model reference the guild has not enabled. -/
theorem canUseModel_unenabled_counterexample :
    canUseModel
      ⟨[⟨"test-guild", ["ollama/llama3.2"],
        [⟨"Admin", ["use_models"], ["*"]⟩]⟩]⟩
      "test-guild" ["Admin"] "openai/gpt-5" = true ∧
    "openai/gpt-5" ∉
      (⟨"test-guild", ["ollama/llama3.2"],
        [⟨"Admin", ["use_models"], ["*"]⟩]⟩ : GuildConfig).enabledModels := by
  decide

/-- C5 amended: `GetAllowedModels` only ever returns models the guild
has enabled, and when some consulted role's patterns include the
universal wildcard it returns exactly the guild's enabled-model list;
`CanUseModel`, however, is a pure pattern-membership query over the
consulted roles' patterns and does not restrict to enabled models. -/
theorem getAllowedModels_subset_enabled_and_star
    (c : Config) (guildID : String) (roles : List String) (gc : GuildConfig)
    (hgc : getGuild c guildID = some gc) :
    (∀ m ∈ getAllowedModels c guildID roles, m ∈ gc.enabledModels) ∧
    ((∃ rc ∈ gc.roles, roleApplies roles rc = true ∧ "*" ∈ rc.allowedModels) →
      getAllowedModels c guildID roles = gc.enabledModels) := by
  constructor
  · intro m hm
    unfold getAllowedModels at hm
    rw [hgc] at hm
    rcases (getAllowedAux_mem gc.enabledModels roles gc.roles []
        (by intro x hx; exact absurd hx (List.not_mem_nil x)) m).mp hm with
      hm | ⟨he, _⟩
    · exact absurd hm (List.not_mem_nil m)
    · exact he
  · intro hstar
    unfold getAllowedModels
    rw [hgc]
    exact getAllowedAux_star gc.enabledModels roles gc.roles [] hstar

/-- Witness for `getAllowedModels_subset_enabled_and_star`: a wildcard
role receives exactly the enabled-model list. -/
theorem getAllowedModels_subset_enabled_and_star_witness :
    getAllowedModels
      ⟨[⟨"g1", ["ollama/llama3.2", "openai/gpt-4o"],
        [⟨"Admin", ["use_models"], ["*"]⟩]⟩]⟩
      "g1" ["Admin"] = ["ollama/llama3.2", "openai/gpt-4o"] := by
  have h := getAllowedModels_subset_enabled_and_star
    ⟨[⟨"g1", ["ollama/llama3.2", "openai/gpt-4o"],
      [⟨"Admin", ["use_models"], ["*"]⟩]⟩]⟩
    "g1" ["Admin"]
    ⟨"g1", ["ollama/llama3.2", "openai/gpt-4o"],
      [⟨"Admin", ["use_models"], ["*"]⟩]⟩
    (by decide)
  exact h.2 (by decide)

/-- C8: capability resolution is union-monotone in the held role set:
`hasPermission` over `A ++ B` holds exactly when it holds over `A` or
over `B`, `canUseModel` likewise, and the allowed-model list for
`A ++ B` contains every model allowed to `A` alone or to `B` alone. -/
theorem rbac_union_monotone (c : Config) (guildID : String) (A B : List String)
    (perm modelRef : String) :
    (hasPermission c guildID (A ++ B) perm = true ↔
      (hasPermission c guildID A perm = true ∨ hasPermission c guildID B perm = true)) ∧
    (canUseModel c guildID (A ++ B) modelRef = true ↔
      (canUseModel c guildID A modelRef = true ∨ canUseModel c guildID B modelRef = true)) ∧
    (∀ m, m ∈ getAllowedModels c guildID A ∨ m ∈ getAllowedModels c guildID B →
      m ∈ getAllowedModels c guildID (A ++ B)) := by
  refine ⟨?_, ?_, ?_⟩
  · rw [hasPermission_iff, hasPermission_iff, hasPermission_iff]
    constructor
    · rintro ⟨gc, hgc, rc, hrc, hA, hperm⟩
      rcases (roleApplies_union A B rc).mp hA with h | h
      · exact Or.inl ⟨gc, hgc, rc, hrc, h, hperm⟩
      · exact Or.inr ⟨gc, hgc, rc, hrc, h, hperm⟩
    · rintro (⟨gc, hgc, rc, hrc, h, hperm⟩ | ⟨gc, hgc, rc, hrc, h, hperm⟩)
      · exact ⟨gc, hgc, rc, hrc, (roleApplies_union A B rc).mpr (Or.inl h), hperm⟩
      · exact ⟨gc, hgc, rc, hrc, (roleApplies_union A B rc).mpr (Or.inr h), hperm⟩
  · rw [canUseModel_iff, canUseModel_iff, canUseModel_iff]
    constructor
    · rintro ⟨gc, hgc, rc, hrc, hA, hp⟩
      rcases (roleApplies_union A B rc).mp hA with h | h
      · exact Or.inl ⟨gc, hgc, rc, hrc, h, hp⟩
      · exact Or.inr ⟨gc, hgc, rc, hrc, h, hp⟩
    · rintro (⟨gc, hgc, rc, hrc, h, hp⟩ | ⟨gc, hgc, rc, hrc, h, hp⟩)
      · exact ⟨gc, hgc, rc, hrc, (roleApplies_union A B rc).mpr (Or.inl h), hp⟩
      · exact ⟨gc, hgc, rc, hrc, (roleApplies_union A B rc).mpr (Or.inr h), hp⟩
  · intro m hm
    unfold getAllowedModels at hm ⊢
    cases hgc : getGuild c guildID with
    | none => rw [hgc] at hm; simp at hm
    | some gc =>
      rw [hgc] at hm
      have hnil : ∀ x ∈ ([] : List String), x ∈ gc.enabledModels := by
        intro x hx; exact absurd hx (List.not_mem_nil x)
      rw [getAllowedAux_mem gc.enabledModels (A ++ B) gc.roles [] hnil m]
      rcases hm with hm | hm
      · rcases (getAllowedAux_mem gc.enabledModels A gc.roles [] hnil m).mp hm with
          hm | ⟨he, rc, hrc, hA, hp⟩
        · exact absurd hm (List.not_mem_nil m)
        · exact Or.inr ⟨he, rc, hrc, (roleApplies_union A B rc).mpr (Or.inl hA), hp⟩
      · rcases (getAllowedAux_mem gc.enabledModels B gc.roles [] hnil m).mp hm with
          hm | ⟨he, rc, hrc, hA, hp⟩
        · exact absurd hm (List.not_mem_nil m)
        · exact Or.inr ⟨he, rc, hrc, (roleApplies_union A B rc).mpr (Or.inr hA), hp⟩

/-! ## Context-assembly lemmas -/

theorem selectRev_cons_nov (count : String → Int) (a : Int) (m : Message)
    (rest : List Message) (t : Int) (h : ¬(t + msgCost count m > a)) :
    selectRev count a (m :: rest) t =
      (m :: (selectRev count a rest (t + msgCost count m)).1,
        (selectRev count a rest (t + msgCost count m)).2) := by
  simp only [selectRev]
  rw [if_neg h]

theorem selectRev_cons_ov (count : String → Int) (a : Int) (m : Message)
    (rest : List Message) (t : Int) (h : t + msgCost count m > a) :
    selectRev count a (m :: rest) t = ([], t) := by
  simp only [selectRev]
  rw [if_pos h]

theorem selectRev_spec (count : String → Int) (a : Int) :
    ∀ (l : List Message) (t : Int),
      ∃ n, n ≤ l.length ∧
        (selectRev count a l t).1 = l.take n ∧
        (selectRev count a l t).2 = t + ((l.take n).map (msgCost count)).sum ∧
        (n = l.length ∨
          (selectRev count a l t).2 + msgCost count (l.getD n default) > a) := by
  intro l
  induction l with
  | nil =>
    intro t
    refine ⟨0, Nat.le_refl 0, ?_, ?_, Or.inl rfl⟩ <;> simp [selectRev]
  | cons m rest ih =>
    intro t
    by_cases hov : t + msgCost count m > a
    · refine ⟨0, Nat.zero_le _, ?_, ?_, Or.inr ?_⟩
      · rw [selectRev_cons_ov count a m rest t hov]
        simp
      · rw [selectRev_cons_ov count a m rest t hov]
        simp
      · rw [selectRev_cons_ov count a m rest t hov, List.getD_cons_zero]
        exact hov
    · obtain ⟨n, hn, h1, h2, h3⟩ := ih (t + msgCost count m)
      refine ⟨n + 1, by simpa using Nat.succ_le_succ hn, ?_, ?_, ?_⟩
      · rw [selectRev_cons_nov count a m rest t hov, List.take_succ_cons, h1]
      · rw [selectRev_cons_nov count a m rest t hov, List.take_succ_cons, h2]
        simp
        ring
      · rcases h3 with h3 | h3
        · exact Or.inl (by simp [h3])
        · refine Or.inr ?_
          rw [selectRev_cons_nov count a m rest t hov, List.getD_cons_succ]
          exact h3

theorem selectRev_le (count : String → Int) (a : Int) :
    ∀ (l : List Message) (t : Int), t ≤ a → (selectRev count a l t).2 ≤ a := by
  intro l
  induction l with
  | nil => intro t ht; simpa [selectRev] using ht
  | cons m rest ih =>
    intro t ht
    by_cases hov : t + msgCost count m > a
    · rw [selectRev_cons_ov count a m rest t hov]
      exact ht
    · rw [selectRev_cons_nov count a m rest t hov]
      exact ih (t + msgCost count m) (by omega)

theorem selectRev_total_eq_sum (count : String → Int) (a : Int)
    (l : List Message) (t : Int) :
    (selectRev count a l t).2 =
      t + (((selectRev count a l t).1).map (msgCost count)).sum := by
  obtain ⟨n, _, h1, h2, _⟩ := selectRev_spec count a l t
  rw [h1, h2]

theorem mem_selectRev (count : String → Int) (a : Int)
    (l : List Message) (t : Int) :
    ∀ m ∈ (selectRev count a l t).1, m ∈ l := by
  obtain ⟨n, _, h1, _, _⟩ := selectRev_spec count a l t
  rw [h1]
  exact fun m hm => List.take_subset n l hm

theorem selectRev_count_indep (a : Int) :
    ∀ (l : List Message), (∀ m ∈ l, m.tokens ≠ 0) →
      ∀ (c1 c2 : String → Int) (t : Int),
        selectRev c1 a l t = selectRev c2 a l t := by
  intro l
  induction l with
  | nil => intro _ c1 c2 t; rfl
  | cons m rest ih =>
    intro hnz c1 c2 t
    have hm : m.tokens ≠ 0 := hnz m (List.mem_cons_self m rest)
    have hc1 : msgCost c1 m = m.tokens := by rw [msgCost, if_neg hm]
    have hc2 : msgCost c2 m = m.tokens := by rw [msgCost, if_neg hm]
    have hrest : ∀ x ∈ rest, x.tokens ≠ 0 :=
      fun x hx => hnz x (List.mem_cons_of_mem m hx)
    by_cases hov : t + m.tokens > a
    · rw [selectRev_cons_ov c1 a m rest t (by rw [hc1]; exact hov),
        selectRev_cons_ov c2 a m rest t (by rw [hc2]; exact hov)]
    · rw [selectRev_cons_nov c1 a m rest t (by rw [hc1]; exact hov),
        selectRev_cons_nov c2 a m rest t (by rw [hc2]; exact hov),
        hc1, hc2, ih hrest c1 c2 (t + m.tokens)]

theorem build_edge (count : String → Int) (messages : List Message)
    (systemPrompt : String) (maxTokens reserveTokens : Int)
    (h : maxTokens - reserveTokens - (count systemPrompt + 4) ≤ 0) :
    build count messages systemPrompt maxTokens reserveTokens =
      ([⟨"system", systemPrompt, count systemPrompt + 4⟩], count systemPrompt + 4) := by
  simp only [build]
  rw [if_pos h]

theorem build_main (count : String → Int) (messages : List Message)
    (systemPrompt : String) (maxTokens reserveTokens : Int)
    (h : ¬(maxTokens - reserveTokens - (count systemPrompt + 4) ≤ 0)) :
    build count messages systemPrompt maxTokens reserveTokens =
      (⟨"system", systemPrompt, count systemPrompt + 4⟩ ::
        ((selectRev count (maxTokens - reserveTokens) messages.reverse
          (count systemPrompt + 4)).1).reverse,
        (selectRev count (maxTokens - reserveTokens) messages.reverse
          (count systemPrompt + 4)).2) := by
  simp only [build]
  rw [if_neg h]

/-- C6: the assembled context always begins with exactly one
system-role message carrying the system prompt (every other element
comes from the input history), and the returned total never exceeds
`maxTokens - reserveTokens` except in the single case where the system
prompt's own cost alone exceeds that budget, in which case the result
is exactly the system message with its own cost as total (and no error
is raised — the embedding is a total function). -/
theorem build_system_first_within_budget (count : String → Int)
    (messages : List Message) (systemPrompt : String) (maxTokens reserveTokens : Int) :
    (∃ rest, (build count messages systemPrompt maxTokens reserveTokens).1 =
        ⟨"system", systemPrompt, count systemPrompt + 4⟩ :: rest ∧
        ∀ m ∈ rest, m ∈ messages) ∧
    ((build count messages systemPrompt maxTokens reserveTokens).2 ≤
        maxTokens - reserveTokens ∨
      (maxTokens - reserveTokens < count systemPrompt + 4 ∧
        (build count messages systemPrompt maxTokens reserveTokens).1 =
          [⟨"system", systemPrompt, count systemPrompt + 4⟩] ∧
        (build count messages systemPrompt maxTokens reserveTokens).2 =
          count systemPrompt + 4)) := by
  by_cases h : maxTokens - reserveTokens - (count systemPrompt + 4) ≤ 0
  · rw [build_edge count messages systemPrompt maxTokens reserveTokens h]
    refine ⟨⟨[], rfl, by simp⟩, ?_⟩
    by_cases h2 : count systemPrompt + 4 ≤ maxTokens - reserveTokens
    · exact Or.inl h2
    · exact Or.inr ⟨by omega, rfl, rfl⟩
  · rw [build_main count messages systemPrompt maxTokens reserveTokens h]
    refine ⟨⟨((selectRev count (maxTokens - reserveTokens) messages.reverse
        (count systemPrompt + 4)).1).reverse, rfl, ?_⟩, Or.inl ?_⟩
    · intro m hm
      have hm' := mem_selectRev count (maxTokens - reserveTokens) messages.reverse
        (count systemPrompt + 4) m (List.mem_reverse.mp hm)
      exact List.mem_reverse.mp hm'
    · exact selectRev_le count (maxTokens - reserveTokens) messages.reverse
        (count systemPrompt + 4) (by omega)

theorem getD_reverse_aux {α : Type} (l : List α) (i : Nat) (d : α) (h : i < l.length) :
    l.reverse.getD i d = l.getD (l.length - 1 - i) d := by
  rw [List.getD_eq_getElem l.reverse d (by simpa using h), List.getElem_reverse,
    List.getD_eq_getElem l d (by omega)]

/-- C7: the history part of the assembled context is a contiguous
suffix of the input (the newest messages), listed after the system
message in the original chronological order; when the cut is proper
and the main selection ran, the newest dropped message is one whose
charge would have pushed the total over the budget (the remaining case
is the documented system-prompt-alone-over-budget edge, which keeps no
history at all). -/
theorem build_keeps_newest_suffix (count : String → Int)
    (messages : List Message) (systemPrompt : String) (maxTokens reserveTokens : Int) :
    ∃ k ≤ messages.length,
      (build count messages systemPrompt maxTokens reserveTokens).1 =
        ⟨"system", systemPrompt, count systemPrompt + 4⟩ :: messages.drop k ∧
      (k = 0 ∨
        (∃ m rest, messages.drop (k - 1) = m :: rest ∧
          (build count messages systemPrompt maxTokens reserveTokens).2 +
            msgCost count m > maxTokens - reserveTokens) ∨
        (maxTokens - reserveTokens ≤ count systemPrompt + 4 ∧ k = messages.length)) := by
  by_cases h : maxTokens - reserveTokens - (count systemPrompt + 4) ≤ 0
  · refine ⟨messages.length, Nat.le_refl _, ?_, Or.inr (Or.inr ⟨by omega, rfl⟩)⟩
    rw [build_edge count messages systemPrompt maxTokens reserveTokens h,
      List.drop_length]
  · obtain ⟨n, hn, h1, h2, h3⟩ := selectRev_spec count (maxTokens - reserveTokens)
      messages.reverse (count systemPrompt + 4)
    rw [List.length_reverse] at hn
    refine ⟨messages.length - n, by omega, ?_, ?_⟩
    · rw [build_main count messages systemPrompt maxTokens reserveTokens h, h1,
        List.take_reverse, List.reverse_reverse]
    · by_cases hnl : n = messages.length
      · exact Or.inl (by omega)
      · have hklt : messages.length - n - 1 < messages.length := by omega
        rcases h3 with h3 | h3
        · rw [List.length_reverse] at h3
          exact absurd h3 hnl
        · refine Or.inr (Or.inl ⟨messages.getD (messages.length - n - 1) default,
            messages.drop (messages.length - n), ?_, ?_⟩)
          · rw [List.drop_eq_getElem_cons hklt,
              ← List.getD_eq_getElem messages default hklt]
            have hsucc : messages.length - n - 1 + 1 = messages.length - n := by omega
            rw [hsucc]
          · rw [build_main count messages systemPrompt maxTokens reserveTokens h]
            have hrw : messages.getD (messages.length - n - 1) default =
                messages.reverse.getD n default := by
              rw [getD_reverse_aux messages n default (by omega)]
              have : messages.length - 1 - n = messages.length - n - 1 := by omega
              rw [this]
            rw [hrw]
            exact h3

/-- C10: in the assembled context the returned total is the system cost
plus exactly the per-message charge of each selected history message,
where a message with a nonzero precomputed token cost is charged
exactly that value (its content is never recounted — with all costs
precomputed the whole build is independent of the counter except on the
system prompt), and only a message with a zero precomputed cost is
recounted as its content cost plus the fixed 4-token overhead. -/
theorem build_total_is_sum_of_charges (count : String → Int)
    (messages : List Message) (systemPrompt : String) (maxTokens reserveTokens : Int) :
    ((build count messages systemPrompt maxTokens reserveTokens).2 =
      (count systemPrompt + 4) +
        ((((build count messages systemPrompt maxTokens reserveTokens).1).drop 1).map
          (msgCost count)).sum) ∧
    (∀ m : Message, m.tokens ≠ 0 → msgCost count m = m.tokens) ∧
    (∀ m : Message, m.tokens = 0 → msgCost count m = count m.content + 4) ∧
    ((∀ m ∈ messages, m.tokens ≠ 0) → ∀ count2 : String → Int,
      count2 systemPrompt = count systemPrompt →
      build count2 messages systemPrompt maxTokens reserveTokens =
        build count messages systemPrompt maxTokens reserveTokens) := by
  refine ⟨?_, fun m hm => by rw [msgCost, if_neg hm],
    fun m hm => by rw [msgCost, if_pos hm], ?_⟩
  · by_cases h : maxTokens - reserveTokens - (count systemPrompt + 4) ≤ 0
    · rw [build_edge count messages systemPrompt maxTokens reserveTokens h]
      simp
    · rw [build_main count messages systemPrompt maxTokens reserveTokens h]
      simp only [List.drop_one, List.tail_cons, List.map_reverse, List.sum_reverse]
      exact selectRev_total_eq_sum count (maxTokens - reserveTokens) messages.reverse
        (count systemPrompt + 4)
  · intro hnz count2 hc2
    have hrev : ∀ m ∈ messages.reverse, m.tokens ≠ 0 :=
      fun m hm => hnz m (List.mem_reverse.mp hm)
    by_cases h : maxTokens - reserveTokens - (count systemPrompt + 4) ≤ 0
    · rw [build_edge count messages systemPrompt maxTokens reserveTokens h,
        build_edge count2 messages systemPrompt maxTokens reserveTokens
          (by rw [hc2]; exact h), hc2]
    · rw [build_main count messages systemPrompt maxTokens reserveTokens h,
        build_main count2 messages systemPrompt maxTokens reserveTokens
          (by rw [hc2]; exact h), hc2,
        selectRev_count_indep (maxTokens - reserveTokens) messages.reverse hrev
          count2 count (count systemPrompt + 4)]

/-- C9: token counting is total — both paths of `Count` return a nil
error with a (nonnegative, `Nat`-valued) count — and when no encoder
is available for the model's encoding family the result is the
heuristic `(len + 3) / 4`, which is exactly the ceiling of the byte
length divided by 4. -/
theorem tokenCounter_total_and_fallback (tc : TokenCounter) (text model : String) :
    (∃ n : Nat, TokenCounter.count tc text model = .ok n) ∧
    (tc.encoders (getEncodingName model) = none →
      TokenCounter.count tc text model = .ok ((text.utf8ByteSize + 3) / 4) ∧
      text.utf8ByteSize ≤ 4 * ((text.utf8ByteSize + 3) / 4) ∧
      4 * ((text.utf8ByteSize + 3) / 4) < text.utf8ByteSize + 4) := by
  constructor
  · unfold TokenCounter.count
    cases h : tc.encoders (getEncodingName model) with
    | none => exact ⟨estimateTokens text, rfl⟩
    | some encoder => exact ⟨(encoder text).length, rfl⟩
  · intro h
    unfold TokenCounter.count
    rw [h]
    refine ⟨rfl, ?_, ?_⟩ <;> omega

/-- Witness for `tokenCounter_total_and_fallback`: with no encoder
available, `"abcde"` (5 bytes) is estimated at ⌈5/4⌉ = 2 tokens. -/
theorem tokenCounter_total_and_fallback_witness :
    TokenCounter.count ⟨fun _ => none⟩ "abcde" "mystery-model" = .ok 2 := by
  have h := (tokenCounter_total_and_fallback ⟨fun _ => none⟩ "abcde" "mystery-model").2 rfl
  exact h.1

/-- Witness for `build_system_first_within_budget`: a small concrete
build stays within `maxTokens - reserveTokens`. -/
theorem build_system_first_within_budget_witness :
    (build (fun _ => 1) [⟨"user", "hi", 3⟩] "p" 100 10).2 ≤ 100 - 10 := by
  rcases (build_system_first_within_budget (fun _ => 1)
      [⟨"user", "hi", 3⟩] "p" 100 10).2 with h | h
  · exact h
  · exact absurd h.1 (by decide)

/-- Witness for `build_keeps_newest_suffix` at a concrete two-message
history. -/
theorem build_keeps_newest_suffix_witness :
    ∃ k ≤ ([⟨"user", "a", 3⟩, ⟨"user", "b", 3⟩] : List Message).length,
      (build (fun _ => 1) [⟨"user", "a", 3⟩, ⟨"user", "b", 3⟩] "p" 100 10).1 =
        ⟨"system", "p", (fun _ => (1 : Int)) "p" + 4⟩ ::
          ([⟨"user", "a", 3⟩, ⟨"user", "b", 3⟩] : List Message).drop k ∧
      (k = 0 ∨
        (∃ m rest, ([⟨"user", "a", 3⟩, ⟨"user", "b", 3⟩] : List Message).drop (k - 1) =
            m :: rest ∧
          (build (fun _ => 1) [⟨"user", "a", 3⟩, ⟨"user", "b", 3⟩] "p" 100 10).2 +
            msgCost (fun _ => 1) m > 100 - 10) ∨
        (100 - 10 ≤ (fun _ => (1 : Int)) "p" + 4 ∧
          k = ([⟨"user", "a", 3⟩, ⟨"user", "b", 3⟩] : List Message).length)) :=
  build_keeps_newest_suffix (fun _ => 1) [⟨"user", "a", 3⟩, ⟨"user", "b", 3⟩] "p" 100 10

/-- Witness for `build_total_is_sum_of_charges`: with all history
costs precomputed, two counters agreeing on the system prompt build
identical contexts. -/
theorem build_total_is_sum_of_charges_witness :
    build (fun s => if s = "p" then 1 else 99) [⟨"user", "hi", 3⟩] "p" 100 10 =
      build (fun _ => 1) [⟨"user", "hi", 3⟩] "p" 100 10 := by
  have h := (build_total_is_sum_of_charges (fun _ => (1 : Int))
    [⟨"user", "hi", 3⟩] "p" 100 10).2.2.2
  exact h (by decide) (fun s => if s = "p" then 1 else 99) (by decide)

/-- Witness for `rbac_union_monotone`: a permission granted by the
second role alone is granted to the union. -/
theorem rbac_union_monotone_witness :
    hasPermission
      ⟨[⟨"g1", ["m1"],
        [⟨"Admin", ["manage"], ["*"]⟩, ⟨"Member", ["use"], ["m1"]⟩]⟩]⟩
      "g1" (["Admin"] ++ ["Member"]) "use" = true :=
  (rbac_union_monotone
    ⟨[⟨"g1", ["m1"],
      [⟨"Admin", ["manage"], ["*"]⟩, ⟨"Member", ["use"], ["m1"]⟩]⟩]⟩
    "g1" ["Admin"] ["Member"] "use" "m1").1.mpr (Or.inr (by decide))
